import Mathlib

/-!
A shallow embedding of the discovery, deduplication, selection, dispatch and
streak-acceleration logic of the go-cast repository, together with theorems
settling the specification claims about them.

Conventions of the embedding:
* Go byte slices and IP addresses are `List Nat`; a nil `net.IP` is `[]`.
* Go maps of strings are association lists with insert-overwrite semantics
  (`mapInsert` below), so map size and lookup behave as in Go.
* Go channels consumed by a sequential loop are `List`s: the list is the
  sequence of values received before the channel closes; producing a list and
  returning models sending each element and then closing the channel.
* A `context.Context` is abstracted by the data the embedded code inspects:
  whether it is already done, and the error value `ctx.Err()` reports.
-/

/-- A Go `net.IP`: a byte slice; `[]` models a nil IP. -/
abbrev IPAddr : Type := List Nat

/-- `chromecast.Device` (src/cast.go): network address, port and the advertised
key/value properties. The Go `map[string]string` is an association list with
unique keys (see `mapInsert`). -/
structure Device where
  ip : IPAddr := []
  port : Nat := 0
  properties : List (String × String) := []
deriving DecidableEq

/-- `Device.ID()`: `properties["id"]`, the empty string when absent
(a Go map read of a missing key yields the zero value). -/
def Device.ID (d : Device) : String := (d.properties.lookup "id").getD ""

/-- `Device.Name()`: `properties["fn"]`, the empty string when absent. -/
def Device.Name (d : Device) : String := (d.properties.lookup "fn").getD ""

namespace discover

/-- Modelled from the spec: the `discover` package implementation is not in
src/ (only its test src/discover/service_test.go is). The deduplicator
consumes `in` until closed and forwards a device only when its identity has
not been seen before, recording the identity of every forwarded device;
`seen` is the set of identities already forwarded. The spec sentence claiming
that empty identity is never deduplicated is contradicted by `TestUniq`
(src/discover/service_test.go:144-173), which calls `Uniq` synchronously with
an `out` channel of capacity 2 and requires exactly two forwarded devices for
an input of four empty-identity devices and two devices with identity "123";
the model therefore deduplicates by identity uniformly, empty included, which
is the only behavior satisfying the test. -/
def UniqGo (seen : List String) : List Device → List Device
  | [] => []
  | d :: ds =>
    if d.ID ∈ seen then UniqGo seen ds
    else d :: UniqGo (d.ID :: seen) ds

/-- `discover.Uniq(in, out)`: forwards the deduplicated stream; the returned
list is the sequence sent on `out`, which is closed when `in` closes
(i.e. when the function returns). -/
def Uniq (ds : List Device) : List Device := UniqGo [] ds

/-- Modelled from the spec: same deduplicator, but taken literally from the
spec's words "empty identity is never deduplicated against other
empty-identity devices — each such device is treated as unique and always
forwarded". Used only to compare the spec's words with the behavior the
repository's own test requires. -/
def UniqSpecWords (seen : List String) : List Device → List Device
  | [] => []
  | d :: ds =>
    if d.ID = "" then d :: UniqSpecWords seen ds
    else if d.ID ∈ seen then UniqSpecWords seen ds
    else d :: UniqSpecWords (d.ID :: seen) ds

/-- The device with no properties, as built by `&chromecast.Device{}` in the
tests. -/
def emptyDevice : Device := {}

/-- The device with identity "123" built in `TestUniq`. -/
def device123 : Device := { properties := [("id", "123")] }

/-- The input stream of `TestUniq` (src/discover/service_test.go:144-173):
four devices with no properties, then the "123" device twice. -/
def testUniqInput : List Device :=
  [emptyDevice, emptyDevice, emptyDevice, emptyDevice, device123, device123]

/-- What `TestUniq` requires of the forwarded stream: the test calls `Uniq`
synchronously to completion with `out` of capacity 2 and no concurrent
reader (so at most two devices may be forwarded), then reads a device with
identity "", a device with identity "123", and finds `out` closed. -/
def TestUniqExpected (out : List Device) : Prop :=
  out.length ≤ 2 ∧ out.map Device.ID = ["", "123"]

/-- A `context.Context` as observed by the embedded code: whether it is
already done when first inspected, and the error value `ctx.Err()` reports
once it is done (e.g. "context canceled" or "context deadline exceeded"). -/
structure Ctx where
  cancelled : Bool
  errVal : String

/-- Outcome of a selector call: the device and error returned to the caller,
and how many times the underlying scanner's `Scan` was invoked. -/
structure SelectOutcome where
  device : Option Device
  err : Option String
  scanCalls : Nat
deriving DecidableEq

/-- Modelled from the spec: `discover.Service.First` is not in src/ (only its
tests are). It starts exactly one scan; with an already-done context it
returns the context's error and no device; otherwise `stream` is the sequence
of devices the scan produces before the context completes, the first of which
is returned — when the context completes before any device arrives, the
context's error is returned. Consistent with `TestFirstDirect` and
`TestFirstCancelled` (src/discover/service_test.go:14-63). -/
def First (ctx : discover.Ctx) (stream : List Device) : SelectOutcome :=
  if ctx.cancelled then { device := none, err := some ctx.errVal, scanCalls := 1 }
  else
    match stream with
    | [] => { device := none, err := some ctx.errVal, scanCalls := 1 }
    | d :: _ => { device := some d, err := none, scanCalls := 1 }

/-- Modelled from the spec: `discover.Service.Named` is not in src/ (only its
tests are). It starts exactly one scan and reads devices until one whose
friendly-name property equals the requested name is found (exact match,
non-matching devices skipped) or the context completes, in which case the
context's own error is returned. Consistent with `TestNamedDirect` and
`TestNamedCancelled` (src/discover/service_test.go:65-142). -/
def Named (ctx : discover.Ctx) (nm : String) (stream : List Device) : SelectOutcome :=
  if ctx.cancelled then { device := none, err := some ctx.errVal, scanCalls := 1 }
  else
    match stream.find? (fun d => d.Name == nm) with
    | some d => { device := some d, err := none, scanCalls := 1 }
    | none => { device := none, err := some ctx.errVal, scanCalls := 1 }

/-- The device named "casti" built in `TestNamedDirect`. -/
def deviceCasti : Device := { properties := [("fn", "casti")] }

end discover

/-- Go `strings.Contains(s, substr)`: some suffix of `s` starts with
`substr`. -/
def strContains (s substr : String) : Bool :=
  s.data.tails.any (fun t => substr.data.isPrefixOf t)

/-- The split performed by Go `strings.SplitN(v, "=", 2)` on the character
list of `v`: `none` when there is no '=' (Go returns a one-element slice),
otherwise the characters before and after the first '='. -/
def breakAtEq : List Char → Option (List Char × List Char)
  | [] => none
  | c :: rest =>
    if c = '=' then some ([], rest)
    else
      match breakAtEq rest with
      | none => none
      | some (pre, post) => some (c :: pre, post)

/-- Go `strings.SplitN(v, "=", 2)` as used by both `ParseProperties`
implementations: the text before and after the first '=' of `v`, or `none`
when `v` contains no '=' (the `len(s) == 2` check fails). -/
def splitEq (v : String) : Option (String × String) :=
  match breakAtEq v.data with
  | none => none
  | some (pre, post) => some (⟨pre⟩, ⟨post⟩)

/-- Go map assignment `m[k] = v` on an association list: overwrite the
first entry with key `k` in place, or append a new entry. On lists with
unique keys (the only ones the embedding builds) this is exactly a Go map
update, with matching lookup and size. -/
def mapInsert : List (String × String) → String → String → List (String × String)
  | [], k, v => [(k, v)]
  | p :: m, k, v => if p.1 == k then (k, v) :: m else p :: mapInsert m k v

/-- The shared property-parsing loop of both scanners
(src/zeroconf/scanner.go): for each record, split at the first '=' and store
key/value when the split yields two parts, silently skipping records without
'='. -/
def parsePairs (records : List String) : List (String × String) :=
  records.foldl
    (fun m v =>
      match splitEq v with
      | some kv => mapInsert m kv.1 kv.2
      | none => m)
    []

/-- The value a key ends up with: the part after the first '=' of the last
'='-containing record whose key (part before the first '=') matches. -/
def lastValue (records : List String) (k : String) : Option String :=
  (((records.filterMap splitEq).filter (fun p => p.1 == k)).getLast?).map (fun p => p.2)

/-- The context oracle a scanner's decode loop observes: at which send
attempt (if any) the `select` sees `ctx.Done()`, the value `ctx.Err()`
reports once done, and whether the context is done when the entries channel
closes. -/
structure ScanCtx where
  doneAt : Option Nat
  errVal : String
  doneAtEnd : Bool

/-- The errors a `Scan` can return (src/zeroconf/scanner.go): resolver
initialization failure, browse failure, or the context's error; `none`
models a nil error. -/
inductive ScanError where
  | resolverInit (msg : String)
  | browse (msg : String)
  | ctxDone (msg : String)
deriving DecidableEq

/-- What a `Scan` call did: the devices sent on `results` in order, whether
`results` was closed before returning, and the returned error. -/
structure ScanResult where
  sent : List Device
  closed : Bool
  err : Option ScanError
deriving DecidableEq

namespace zeroconf

/-- `zeroconf.ServiceEntry` as read by `Decode` (src/zeroconf/scanner.go):
the service type string, the text records, the IPv6 and IPv4 address
records, and the port. -/
structure ServiceEntry where
  service : String
  text : List String
  addrIPv6 : List IPAddr
  addrIPv4 : List IPAddr
  port : Nat
deriving DecidableEq

/-- `zeroconf.Scanner.ParseProperties` (src/zeroconf/scanner.go:86-95). -/
def ParseProperties (s : List String) : List (String × String) :=
  parsePairs s

/-- `zeroconf.Scanner.Decode` (src/zeroconf/scanner.go:63-82): reject
entries whose service string lacks "_googlecast."; otherwise build a device
whose address is the first IPv6 record when one exists, else the first IPv4
record, else nil (`[]`). -/
def Decode (e : ServiceEntry) : Except String Device :=
  if strContains e.service "_googlecast." = false then
    Except.error ("fdqn '" ++ e.service ++ " does not contain '_googlecast.'")
  else
    Except.ok
      { ip :=
          if 0 < e.addrIPv6.length then e.addrIPv6.headI
          else if 0 < e.addrIPv4.length then e.addrIPv4.headI
          else [],
        port := e.port,
        properties := ParseProperties e.text }

/-- The decode loop of `zeroconf.Scanner.Scan` (src/zeroconf/scanner.go:46-59):
for each entry, a decode failure is logged and skipped; a decoded device is
sent unless the `select` observes the done context first, in which case
`ctx.Err()` is returned; when the entries channel closes, `ctx.Err()` is
returned (nil when the context is still live). `results` is closed by the
deferred `close` on every path. `n` counts the sends performed so far. -/
def ScanLoop (ctx : ScanCtx) : List ServiceEntry → Nat → List Device → ScanResult
  | [], _, acc =>
    { sent := acc, closed := true,
      err := if ctx.doneAtEnd then some (ScanError.ctxDone ctx.errVal) else none }
  | e :: es, n, acc =>
    match Decode e with
    | Except.error _ => ScanLoop ctx es n acc
    | Except.ok c =>
      if ctx.doneAt = some n then
        { sent := acc, closed := true, err := some (ScanError.ctxDone ctx.errVal) }
      else ScanLoop ctx es (n + 1) (acc ++ [c])

/-- `zeroconf.Scanner.Scan` (src/zeroconf/scanner.go:29-60): `results` is
closed by `defer` on every return path; resolver initialization failure and
browse failure return wrapped errors before any entry is processed;
otherwise the decode loop runs over the received entries. -/
def Scan (resolverErr browseErr : Option String) (ctx : ScanCtx)
    (entries : List ServiceEntry) : ScanResult :=
  match resolverErr with
  | some msg => { sent := [], closed := true, err := some (ScanError.resolverInit msg) }
  | none =>
    match browseErr with
    | some msg => { sent := [], closed := true, err := some (ScanError.browse msg) }
    | none => ScanLoop ctx entries 0 []

end zeroconf

namespace mdns

/-- `mdns.ServiceEntry` as read by `Decode` (src/zeroconf/scanner.go, mdns
scanner section): the FQDN name, the '|'-delimited info string, the IPv4 and
IPv6 address records, and the port. -/
structure ServiceEntry where
  name : String
  info : String
  addrV4 : IPAddr
  addrV6 : IPAddr
  port : Nat
deriving DecidableEq

/-- Go `strings.Split(txt, "|")` helper: `acc` holds the characters of the
current field in reverse. -/
def splitPipeAux : List Char → List Char → List String
  | [], acc => [⟨acc.reverse⟩]
  | c :: rest, acc =>
    if c = '|' then ⟨acc.reverse⟩ :: splitPipeAux rest []
    else splitPipeAux rest (c :: acc)

/-- Go `strings.Split(txt, "|")`. -/
def splitPipe (txt : String) : List String := splitPipeAux txt.data []

/-- `mdns.Scanner.ParseProperties` (src/zeroconf/scanner.go, mdns scanner
section): split the info string on '|', then the shared key=value loop. -/
def ParseProperties (txt : String) : List (String × String) :=
  parsePairs (splitPipe txt)

/-- `mdns.Scanner.Decode` (src/zeroconf/scanner.go, mdns scanner section):
reject entries whose name lacks "._googlecast"; otherwise build a device
whose address is `entry.AddrV4` — the IPv4 record, unconditionally. -/
def Decode (e : ServiceEntry) : Except String Device :=
  if strContains e.name "._googlecast" = false then
    Except.error ("fdqn '" ++ e.name ++ " does not contain '._googlecast'")
  else
    Except.ok { ip := e.addrV4, port := e.port, properties := ParseProperties e.info }

/-- The decode loop of `mdns.Scanner.Scan` (src/zeroconf/scanner.go, mdns
scanner section): identical shape to the zeroconf loop — decode failures are
skipped, sends race the done context, `results` is closed by `defer` on
every path. -/
def ScanLoop (ctx : ScanCtx) : List ServiceEntry → Nat → List Device → ScanResult
  | [], _, acc =>
    { sent := acc, closed := true,
      err := if ctx.doneAtEnd then some (ScanError.ctxDone ctx.errVal) else none }
  | e :: es, n, acc =>
    match Decode e with
    | Except.error _ => ScanLoop ctx es n acc
    | Except.ok c =>
      if ctx.doneAt = some n then
        { sent := acc, closed := true, err := some (ScanError.ctxDone ctx.errVal) }
      else ScanLoop ctx es (n + 1) (acc ++ [c])

/-- `mdns.Scanner.Scan` (src/zeroconf/scanner.go, mdns scanner section):
the entries channel is fed by the query goroutine and closed when the
context ends; the decode loop consumes it; `results` is closed by `defer` on
every return path. -/
def Scan (ctx : ScanCtx) (entries : List ServiceEntry) : ScanResult :=
  ScanLoop ctx entries 0 []

/-- A concrete mdns advertisement entry carrying both an IPv6 record
(fe80::1) and an IPv4 record (192.168.1.10). -/
def entryBothAddrs : ServiceEntry :=
  { name := "Chromecast._googlecast._tcp.local.",
    info := "",
    addrV4 := [192, 168, 1, 10],
    addrV6 := [254, 128, 0, 0, 0, 0, 0, 0, 0, 0, 0, 0, 0, 0, 0, 1],
    port := 8009 }

/-- An mdns entry whose name lacks the "._googlecast" token, so `Decode`
rejects it. -/
def entryBadName : ServiceEntry :=
  { name := "printer._ipp._tcp.local.", info := "", addrV4 := [10, 0, 0, 2],
    addrV6 := [], port := 631 }

end mdns

/-- A zeroconf entry whose service string lacks the "_googlecast." token, so
`Decode` rejects it. -/
def zeroconfBadEntry : zeroconf.ServiceEntry :=
  { service := "_workstation._tcp", text := [], addrIPv6 := [], addrIPv4 := [],
    port := 0 }

namespace protocol

/-- `cast.Header` (src/cast.go): message type, optional request id, routing
ids and namespace. -/
structure Header where
  type : String := ""
  requestID : Option Nat := none
  destinationID : String := ""
  sourceID : String := ""
  ns : String := ""
deriving DecidableEq

/-- `cast.Message` (src/cast.go): a header plus the opaque payload bytes. -/
structure Message where
  header : Header := {}
  payload : List Nat := []
deriving DecidableEq

/-- A delivery performed by the dispatcher's read loop: into the single-slot
channel of the pending request with the given id, or to a subscriber
registered for a (namespace, type) pair. -/
inductive Delivery where
  | toPending (rid : Nat) (payload : List Nat)
  | toSub (ns ty : String) (payload : List Nat)
deriving DecidableEq

/-- Whether a delivery fulfills the pending request with id `rid`. -/
def isResponseTo (rid : Nat) : Delivery → Bool
  | Delivery.toPending r _ => r == rid
  | Delivery.toSub _ _ _ => false

/-- Modelled from the spec: the dispatcher implementation (the `protocol`
package) is not in src/. Event delivery for a non-response message: one
delivery per subscription registered for the message's (namespace, type)
pair; no match means the message is discarded silently. -/
def eventDeliveries (subs : List (String × String)) (m : Message) : List Delivery :=
  (subs.filter (fun k => k == (m.header.ns, m.header.type))).map
    (fun k => Delivery.toSub k.1 k.2 m.payload)

/-- Modelled from the spec: one step of the dispatcher's read loop. If the
header's request id is non-nil and matches a pending entry, the payload is
delivered into that entry's slot, the entry is removed, and processing stops
(no subscription delivery); otherwise the subscription registry is
consulted. `pending` is the set of outstanding request ids; the returned
pair is the updated pending set and the deliveries performed. -/
def dispatchMessage (pending : List Nat) (subs : List (String × String))
    (m : Message) : List Nat × List Delivery :=
  match m.header.requestID with
  | some rid =>
    if rid ∈ pending then (pending.erase rid, [Delivery.toPending rid m.payload])
    else (pending, eventDeliveries subs m)
  | none => (pending, eventDeliveries subs m)

/-- The read loop over a sequence of decoded messages: dispatch each in
arrival order, threading the pending table through and concatenating the
deliveries. -/
def dispatchAll (pending : List Nat) (subs : List (String × String)) :
    List Message → List Nat × List Delivery
  | [] => (pending, [])
  | m :: ms =>
    let r := dispatchMessage pending subs m
    let rest := dispatchAll r.1 subs ms
    (rest.1, r.2 ++ rest.2)

/-- A response message carrying request id 7. -/
def responseSeven : Message := { header := { requestID := some 7 }, payload := [2] }

/-- A response message carrying request id 9. -/
def responseNine : Message := { header := { requestID := some 9 }, payload := [1] }

end protocol

namespace streak

/-- `streak.Factor` as constructed in src/cmd/chromecast/control.go: a
multiplier that applies after a streak of the given duration
(milliseconds). -/
structure Factor where
  after : Nat
  value : Int
deriving DecidableEq

/-- Modelled from the spec: the `streak` package is not in src/ (only its
caller `newStreakFactor` is). The accelerator state: base interval, tiers
ordered by decreasing threshold, the start timestamp of the current streak
and the timestamp of the previous call. Times in milliseconds. -/
structure State where
  baseInterval : Nat
  factors : List Factor
  start : Nat
  last : Nat
deriving DecidableEq

/-- Modelled from the spec: `streak.New(baseInterval, factors...)` called at
time `now`. -/
def New (base : Nat) (fs : List Factor) (now : Nat) : State :=
  { baseInterval := base, factors := fs, start := now, last := now }

/-- Modelled from the spec: `UpdatedFactor()` called at time `now`. If more
than `baseInterval` elapsed since the previous call, the streak start is
reset to `now` and the factor is 1; otherwise the factor is the value of the
first tier — they are ordered by decreasing threshold, so the first is the
largest — whose threshold does not exceed the time since the streak's start,
or 1 when none qualifies. The previous-call timestamp is updated on every
call. -/
def UpdatedFactor (s : State) (now : Nat) : State × Int :=
  if s.baseInterval < now - s.last then
    ({ s with start := now, last := now }, 1)
  else
    ({ s with last := now },
      match s.factors.find? (fun f => decide (f.after ≤ now - s.start)) with
      | some f => f.value
      | none => 1)

end streak

/-- `newStreakFactor` (src/cmd/chromecast/control.go:72-84): a streak
accelerator with base interval 50ms and tiers 3s↦6, 2s↦4, 1s↦2, listed in
decreasing threshold order. -/
def newStreakFactor (now : Nat) : streak.State :=
  streak.New 50 [⟨3000, 6⟩, ⟨2000, 4⟩, ⟨1000, 2⟩] now

/-- A mid-streak state of `newStreakFactor`'s accelerator: streak started at
`start`, previous call at `last`. -/
def streakStateAt (start last : Nat) : streak.State :=
  { newStreakFactor start with last := last }

/-! ### Theorems -/

/-- A successful `find?` splits the list into a non-matching prefix, the found
element, and a remainder. -/
theorem find?_split {α : Type} (p : α → Bool) (l : List α) (a : α)
    (h : l.find? p = some a) :
    ∃ pre post, l = pre ++ a :: post ∧ ∀ b ∈ pre, p b = false := by
  induction l with
  | nil => simp at h
  | cons x xs ih =>
    rw [List.find?_cons] at h
    by_cases hx : p x
    · simp only [hx] at h
      cases h
      exact ⟨[], xs, rfl, by simp⟩
    · simp only [Bool.not_eq_true] at hx
      simp only [hx] at h
      obtain ⟨pre, post, heq, hpre⟩ := ih h
      refine ⟨x :: pre, post, by simp [heq], ?_⟩
      intro b hb
      rcases List.mem_cons.1 hb with hb | hb
      · simpa [hb] using hx
      · exact hpre b hb

/-- The deduplicated stream is a sublist of the input: it forwards only
received devices, in arrival order. -/
theorem discover.uniqGo_sublist (seen : List String) (ds : List Device) :
    (discover.UniqGo seen ds).Sublist ds := by
  induction ds generalizing seen with
  | nil => simp [discover.UniqGo]
  | cons d ds ih =>
    rw [discover.UniqGo]
    split
    · exact (ih seen).cons d
    · exact (ih (d.ID :: seen)).cons₂ d

/-- The first device with a given identity in the deduplicated stream is the
first device with that identity in the input (and none at all when the
identity was already seen). -/
theorem discover.uniqGo_find? (seen : List String) (ds : List Device) (s : String) :
    (discover.UniqGo seen ds).find? (fun d => d.ID == s) =
      if s ∈ seen then none else ds.find? (fun d => d.ID == s) := by
  induction ds generalizing seen with
  | nil => simp [discover.UniqGo]
  | cons d ds ih =>
    rw [discover.UniqGo]
    by_cases hd : d.ID ∈ seen
    · rw [if_pos hd, ih seen]
      by_cases hs : s ∈ seen
      · rw [if_pos hs, if_pos hs]
      · rw [if_neg hs, if_neg hs, List.find?_cons]
        have : (d.ID == s) = false := by
          by_cases h : d.ID = s
          · exact absurd (h ▸ hd) hs
          · simpa using h
        rw [this]
    · rw [if_neg hd, List.find?_cons]
      by_cases he : d.ID = s
      · have : (d.ID == s) = true := by simpa using he
        rw [this]
        have hs : s ∉ seen := fun h => hd (he ▸ h)
        rw [if_neg hs, List.find?_cons, (by simpa using he : (d.ID == s) = true)]
      · have : (d.ID == s) = false := by simpa using he
        rw [this, ih (d.ID :: seen)]
        by_cases hs : s ∈ seen
        · rw [if_pos (List.mem_cons_of_mem _ hs), if_pos hs]
        · have : s ∉ d.ID :: seen := by
            intro h
            rcases List.mem_cons.1 h with h | h
            · exact he h.symm
            · exact hs h
          rw [if_neg this, if_neg hs, List.find?_cons,
            (by simpa using he : (d.ID == s) = false)]

/-- Each identity occurs in the deduplicated stream exactly once when the
input contains it (and it was not already seen), and never otherwise. -/
theorem discover.uniqGo_countP (seen : List String) (ds : List Device) (s : String) :
    (discover.UniqGo seen ds).countP (fun d => d.ID == s) =
      if s ∈ seen then 0 else min (ds.countP (fun d => d.ID == s)) 1 := by
  induction ds generalizing seen with
  | nil => simp [discover.UniqGo]
  | cons d ds ih =>
    rw [discover.UniqGo]
    by_cases hd : d.ID ∈ seen
    · rw [if_pos hd, ih seen]
      by_cases hs : s ∈ seen
      · rw [if_pos hs, if_pos hs]
      · have : (d.ID == s) = false := by
          by_cases h : d.ID = s
          · exact absurd (h ▸ hd) hs
          · simpa using h
        rw [if_neg hs, if_neg hs, List.countP_cons, this]
        simp
    · rw [if_neg hd, List.countP_cons, ih (d.ID :: seen)]
      by_cases he : d.ID = s
      · have heq : (d.ID == s) = true := by simpa using he
        have hs : s ∉ seen := fun h => hd (he ▸ h)
        rw [heq, if_pos (he ▸ List.mem_cons_self d.ID seen), if_neg hs,
          List.countP_cons, heq]
        simp
      · have heq : (d.ID == s) = false := by simpa using he
        rw [heq]
        by_cases hs : s ∈ seen
        · rw [if_pos (List.mem_cons_of_mem _ hs), if_pos hs]
          simp
        · have : s ∉ d.ID :: seen := by
            intro h
            rcases List.mem_cons.1 h with h | h
            · exact he h.symm
            · exact hs h
          rw [if_neg this, if_neg hs, List.countP_cons, heq]
          simp

/-- C1 (counterexample): on the input of `TestUniq` — four empty-identity
devices then the "123" device twice — a deduplicator following the spec's
words (never deduplicating empty identity) forwards five devices, which
violates the repository's own test: `TestUniq` calls `Uniq` synchronously
with an `out` channel of capacity 2 and requires exactly the two devices with
identities "" and "123" before `out` closes. The faithful model forwards
exactly those two devices, not five. -/
theorem C1_counterexample :
    (discover.UniqSpecWords [] discover.testUniqInput).length = 5 ∧
    ¬ discover.TestUniqExpected (discover.UniqSpecWords [] discover.testUniqInput) ∧
    discover.TestUniqExpected (discover.Uniq discover.testUniqInput) :=
  ⟨by decide, fun h => absurd h.1 (by decide), by decide, by decide⟩

/-- C1 (amended): on the `TestUniq` input the output is exactly two devices —
the first empty-identity device then the first "123" device, in arrival
order, after which `out` is closed; in general `Uniq` forwards only the first
device per distinct identity, the empty identity included (empty-identity
devices are deduplicated like any others), preserves arrival order, and
closes `out` when `in` closes. -/
theorem C1_uniq_first_per_identity :
    discover.Uniq discover.testUniqInput = [discover.emptyDevice, discover.device123] ∧
    ∀ ds : List Device,
      (discover.Uniq ds).Sublist ds ∧
      (∀ s : String, (discover.Uniq ds).countP (fun d => d.ID == s)
          = min (ds.countP (fun d => d.ID == s)) 1) ∧
      (∀ s : String, (discover.Uniq ds).find? (fun d => d.ID == s)
          = ds.find? (fun d => d.ID == s)) := by
  refine ⟨by decide, fun ds => ⟨discover.uniqGo_sublist [] ds, fun s => ?_, fun s => ?_⟩⟩
  · rw [discover.Uniq, discover.uniqGo_countP]
    simp
  · rw [discover.Uniq, discover.uniqGo_find?]
    simp

/-- C3: `First` with an already-cancelled context returns the context's error
and no device, invoking the scanner at most once; in general it returns the
first device produced by the scan, or the context's error if the context
completes before any device arrives. -/
theorem C3_first_cancelled_and_general (ctx : discover.Ctx) (stream : List Device) :
    (ctx.cancelled = true →
      discover.First ctx stream
        = { device := none, err := some ctx.errVal, scanCalls := 1 }) ∧
    (discover.First ctx stream).scanCalls ≤ 1 ∧
    (ctx.cancelled = false →
      (∀ d rest, stream = d :: rest →
        discover.First ctx stream = { device := some d, err := none, scanCalls := 1 }) ∧
      (stream = [] →
        discover.First ctx stream
          = { device := none, err := some ctx.errVal, scanCalls := 1 })) := by
  refine ⟨fun hc => ?_, ?_, fun hc => ⟨fun d rest hs => ?_, fun hs => ?_⟩⟩
  · simp [discover.First, hc]
  · cases hc : ctx.cancelled <;> cases stream <;> simp [discover.First, hc]
  · simp [discover.First, hc, hs]
  · simp [discover.First, hc, hs]

/-- C3 (witness): the concrete situations of `TestFirstCancelled` (cancelled
context, no device) and `TestFirstDirect` (live context, one device). -/
theorem C3_witness :
    discover.First ⟨true, "context canceled"⟩ []
      = { device := none, err := some "context canceled", scanCalls := 1 } ∧
    discover.First ⟨false, ""⟩ [discover.emptyDevice]
      = { device := some discover.emptyDevice, err := none, scanCalls := 1 } :=
  ⟨(C3_first_cancelled_and_general ⟨true, "context canceled"⟩ []).1 rfl,
   ((C3_first_cancelled_and_general ⟨false, ""⟩ [discover.emptyDevice]).2.2 rfl).1
     discover.emptyDevice [] rfl⟩

/-- C4: on a live context, whenever the scan stream contains a device whose
"fn" property equals the requested name, `Named` returns the first such
device — the stream splits into a non-matching prefix followed by the
returned device — and the scanner is invoked exactly once. -/
theorem C4_named_returns_first_match (ctx : discover.Ctx) (nm : String) (stream : List Device)
    (hc : ctx.cancelled = false) (hex : ∃ d ∈ stream, d.Name = nm) :
    ∃ d, d.Name = nm ∧
      discover.Named ctx nm stream = { device := some d, err := none, scanCalls := 1 } ∧
      ∃ pre post, stream = pre ++ d :: post ∧ ∀ e ∈ pre, e.Name ≠ nm := by
  obtain ⟨d₀, hd₀, hn₀⟩ := hex
  have hfind : ∃ d, stream.find? (fun x => x.Name == nm) = some d := by
    rcases h : stream.find? (fun x => x.Name == nm) with _ | d
    · rw [List.find?_eq_none] at h
      exact absurd (by simpa using hn₀) (h d₀ hd₀)
    · exact ⟨d, h⟩
  obtain ⟨d, hd⟩ := hfind
  refine ⟨d, by simpa using List.find?_some hd, ?_, ?_⟩
  · simp [discover.Named, hc, hd]
  · obtain ⟨pre, post, heq, hpre⟩ := find?_split _ _ _ hd
    exact ⟨pre, post, heq, fun e he => by simpa using hpre e he⟩

/-- C4 (witness): the stream of `TestNamedDirect` — an anonymous device, the
device named "casti", another anonymous device. -/
theorem C4_witness :
    ∃ d, d.Name = "casti" ∧
      discover.Named ⟨false, ""⟩ "casti"
          [discover.emptyDevice, discover.deviceCasti, discover.emptyDevice]
        = { device := some d, err := none, scanCalls := 1 } ∧
      ∃ pre post,
        [discover.emptyDevice, discover.deviceCasti, discover.emptyDevice]
          = pre ++ d :: post ∧ ∀ e ∈ pre, e.Name ≠ "casti" :=
  C4_named_returns_first_match ⟨false, ""⟩ "casti"
    [discover.emptyDevice, discover.deviceCasti, discover.emptyDevice] rfl
    ⟨discover.deviceCasti, by simp, by decide⟩

/-- C5: when the context completes before any device with the requested name
is found — it is already cancelled, or no device of the stream matches —
`Named` returns no device and exactly the context's own error value (no
distinct error kind), and the scanner is invoked at most once. -/
theorem C5_named_no_match (ctx : discover.Ctx) (nm : String) (stream : List Device)
    (h : ctx.cancelled = true ∨ ∀ d ∈ stream, d.Name ≠ nm) :
    discover.Named ctx nm stream
        = { device := none, err := some ctx.errVal, scanCalls := 1 } ∧
    (discover.Named ctx nm stream).scanCalls ≤ 1 := by
  have : discover.Named ctx nm stream
      = { device := none, err := some ctx.errVal, scanCalls := 1 } := by
    rcases h with hc | hnone
    · simp [discover.Named, hc]
    · cases hc : ctx.cancelled
      · have hfind : stream.find? (fun x => x.Name == nm) = none := by
          rw [List.find?_eq_none]
          intro d hd
          simpa using hnone d hd
        simp [discover.Named, hc, hfind]
      · simp [discover.Named, hc]
  exact ⟨this, by rw [this]⟩

/-- C5 (witness): the concrete situation of `TestNamedCancelled` — an
already-cancelled context and a stream of anonymous devices only. -/
theorem C5_witness :
    discover.Named ⟨true, "context canceled"⟩ "casti" [discover.emptyDevice]
        = { device := none, err := some "context canceled", scanCalls := 1 } ∧
    (discover.Named ⟨true, "context canceled"⟩ "casti" [discover.emptyDevice]).scanCalls
      ≤ 1 :=
  C5_named_no_match ⟨true, "context canceled"⟩ "casti" [discover.emptyDevice] (Or.inl rfl)

/-- The zeroconf decode loop closes `results` on every path. -/
theorem zeroconf.zscanLoop_closed (ctx : ScanCtx) (es : List zeroconf.ServiceEntry)
    (n : Nat) (acc : List Device) :
    (zeroconf.ScanLoop ctx es n acc).closed = true := by
  induction es generalizing n acc with
  | nil => rfl
  | cons e es ih =>
    rw [zeroconf.ScanLoop]
    rcases zeroconf.Decode e with _ | c
    · exact ih n acc
    · by_cases h : ctx.doneAt = some n
      · simp [h]
      · simp only [h, if_false, if_neg h]
        exact ih (n + 1) (acc ++ [c])

/-- The mdns decode loop closes `results` on every path. -/
theorem mdns.mscanLoop_closed (ctx : ScanCtx) (es : List mdns.ServiceEntry)
    (n : Nat) (acc : List Device) :
    (mdns.ScanLoop ctx es n acc).closed = true := by
  induction es generalizing n acc with
  | nil => rfl
  | cons e es ih =>
    rw [mdns.ScanLoop]
    rcases mdns.Decode e with _ | c
    · exact ih n acc
    · by_cases h : ctx.doneAt = some n
      · simp [h]
      · simp only [h, if_false, if_neg h]
        exact ih (n + 1) (acc ++ [c])

/-- C6: both `Scan` implementations close the `results` channel before
returning, on every return path — normal termination, resolver/browse
failure, and context completion. -/
theorem C6_scan_closes_results :
    (∀ (resolverErr browseErr : Option String) (ctx : ScanCtx)
        (entries : List zeroconf.ServiceEntry),
      (zeroconf.Scan resolverErr browseErr ctx entries).closed = true) ∧
    (∀ (ctx : ScanCtx) (entries : List mdns.ServiceEntry),
      (mdns.Scan ctx entries).closed = true) := by
  constructor
  · intro resolverErr browseErr ctx entries
    rcases resolverErr with _ | msg
    · rcases browseErr with _ | msg
      · exact zeroconf.zscanLoop_closed ctx entries 0 []
      · rfl
    · rfl
  · intro ctx entries
    exact mdns.mscanLoop_closed ctx entries 0 []

/-- C7 (counterexample): an mdns advertisement entry carrying both an IPv6
and an IPv4 record decodes to a device whose address is the IPv4 record —
`mdns.Scanner.Decode` reads `entry.AddrV4` unconditionally — contradicting
the claim that both discovery mechanisms prefer the IPv6 record. -/
theorem C7_counterexample :
    mdns.entryBothAddrs.addrV6 ≠ [] ∧
    mdns.Decode mdns.entryBothAddrs
      = Except.ok { ip := mdns.entryBothAddrs.addrV4, port := 8009, properties := [] } ∧
    mdns.entryBothAddrs.addrV4 ≠ mdns.entryBothAddrs.addrV6 :=
  ⟨by decide, by rfl, by decide⟩

/-- C7 (amended): only the zeroconf scanner takes the device address
preferentially from an IPv6 record, falling back to an IPv4 record when no
IPv6 record is present (and to a nil address when neither exists); the mdns
scanner always uses the IPv4 record. -/
theorem C7_ipv6_preference_zeroconf_only :
    (∀ e : zeroconf.ServiceEntry, strContains e.service "_googlecast." = true →
      (e.addrIPv6 ≠ [] →
        zeroconf.Decode e = Except.ok
          { ip := e.addrIPv6.headI, port := e.port,
            properties := zeroconf.ParseProperties e.text }) ∧
      (e.addrIPv6 = [] → e.addrIPv4 ≠ [] →
        zeroconf.Decode e = Except.ok
          { ip := e.addrIPv4.headI, port := e.port,
            properties := zeroconf.ParseProperties e.text })) ∧
    (∀ e : mdns.ServiceEntry, strContains e.name "._googlecast" = true →
      mdns.Decode e = Except.ok
        { ip := e.addrV4, port := e.port, properties := mdns.ParseProperties e.info }) := by
  constructor
  · intro e hs
    constructor
    · intro h6
      have hlen : 0 < e.addrIPv6.length := List.length_pos.2 h6
      simp [zeroconf.Decode, hs, hlen]
    · intro h6 h4
      have hlen6 : ¬ 0 < e.addrIPv6.length := by simp [h6]
      have hlen4 : 0 < e.addrIPv4.length := List.length_pos.2 h4
      simp [zeroconf.Decode, hs, hlen6, hlen4]
  · intro e hn
    simp [mdns.Decode, hn]

/-- C7 (witness): the zeroconf preference and the mdns IPv4-only behavior at
concrete entries. -/
theorem C7_witness :
    zeroconf.Decode
        { service := "_googlecast._tcp", text := [],
          addrIPv6 := [[0, 1]], addrIPv4 := [[10, 0, 0, 1]], port := 8009 }
      = Except.ok { ip := [0, 1], port := 8009, properties := [] } ∧
    mdns.Decode mdns.entryBothAddrs
      = Except.ok { ip := [192, 168, 1, 10], port := 8009, properties := [] } :=
  ⟨((C7_ipv6_preference_zeroconf_only.1
      { service := "_googlecast._tcp", text := [],
        addrIPv6 := [[0, 1]], addrIPv4 := [[10, 0, 0, 1]], port := 8009 }
      (by decide)).1 (by decide)),
   C7_ipv6_preference_zeroconf_only.2 mdns.entryBothAddrs (by decide)⟩

/-- C8: a decode failure of a single advertisement record is non-fatal for
both scanners: the decode loop on a failing record continues with the
remaining records exactly as if the record had never arrived — no device is
emitted for it, no error is surfaced, and in particular the whole `Scan`
result (devices sent and error returned) is unchanged. -/
theorem C8_decode_failure_skipped :
    (∀ (ctx : ScanCtx) (e : zeroconf.ServiceEntry) (es : List zeroconf.ServiceEntry)
        (n : Nat) (acc : List Device) (msg : String),
      zeroconf.Decode e = Except.error msg →
        zeroconf.ScanLoop ctx (e :: es) n acc = zeroconf.ScanLoop ctx es n acc ∧
        zeroconf.Scan none none ctx (e :: es) = zeroconf.Scan none none ctx es) ∧
    (∀ (ctx : ScanCtx) (e : mdns.ServiceEntry) (es : List mdns.ServiceEntry)
        (n : Nat) (acc : List Device) (msg : String),
      mdns.Decode e = Except.error msg →
        mdns.ScanLoop ctx (e :: es) n acc = mdns.ScanLoop ctx es n acc ∧
        mdns.Scan ctx (e :: es) = mdns.Scan ctx es) := by
  constructor
  · intro ctx e es n acc msg h
    constructor
    · rw [zeroconf.ScanLoop, h]
    · show zeroconf.ScanLoop ctx (e :: es) 0 [] = zeroconf.ScanLoop ctx es 0 []
      rw [zeroconf.ScanLoop, h]
  · intro ctx e es n acc msg h
    constructor
    · rw [mdns.ScanLoop, h]
    · show mdns.ScanLoop ctx (e :: es) 0 [] = mdns.ScanLoop ctx es 0 []
      rw [mdns.ScanLoop, h]

/-- C8 (witness): concrete malformed records — a zeroconf entry without the
"_googlecast." token and an mdns entry without the "._googlecast" token —
are skipped by their scan loops. -/
theorem C8_witness :
    (zeroconf.Scan none none ⟨none, "", false⟩ [zeroconfBadEntry]
        = zeroconf.Scan none none ⟨none, "", false⟩ []) ∧
    (mdns.Scan ⟨none, "", false⟩ [mdns.entryBadName]
        = mdns.Scan ⟨none, "", false⟩ []) :=
  ⟨(C8_decode_failure_skipped.1 ⟨none, "", false⟩ zeroconfBadEntry [] 0 []
      ("fdqn '" ++ zeroconfBadEntry.service ++ " does not contain '_googlecast.'")
      (by rfl)).2,
   (C8_decode_failure_skipped.2 ⟨none, "", false⟩ mdns.entryBadName [] 0 []
      ("fdqn '" ++ mdns.entryBadName.name ++ " does not contain '._googlecast'")
      (by rfl)).2⟩

/-- Event deliveries never fulfill a pending request. -/
theorem protocol.eventDeliveries_no_response (subs : List (String × String))
    (m : protocol.Message) (rid : Nat) :
    (protocol.eventDeliveries subs m).filter (protocol.isResponseTo rid) = [] := by
  rw [protocol.eventDeliveries, List.filter_map]
  have : ((protocol.isResponseTo rid) ∘
      fun k : String × String => protocol.Delivery.toSub k.1 k.2 m.payload)
      = fun _ => false := by
    funext k
    rfl
  rw [this]
  simp

/-- A message that does not carry request id `rid` produces no delivery into
`rid`'s slot. -/
theorem protocol.dispatchMessage_other_rid (pending : List Nat)
    (subs : List (String × String)) (m : protocol.Message) (rid : Nat)
    (h : m.header.requestID ≠ some rid) :
    (protocol.dispatchMessage pending subs m).2.filter (protocol.isResponseTo rid)
      = [] := by
  rw [protocol.dispatchMessage]
  rcases hr : m.header.requestID with _ | r
  · exact protocol.eventDeliveries_no_response subs m rid
  · by_cases hp : r ∈ pending
    · have hne : (r == rid) = false := by
        rw [hr] at h
        simpa using fun he => h (by rw [he])
      simp [hp, protocol.isResponseTo, hne]
    · simp only [hp, if_neg hp]
      exact protocol.eventDeliveries_no_response subs m rid

/-- Dispatching a message that does not carry request id `rid` keeps `rid`
pending. -/
theorem protocol.dispatchMessage_preserves_pending (pending : List Nat)
    (subs : List (String × String)) (m : protocol.Message) (rid : Nat)
    (hin : rid ∈ pending) (h : m.header.requestID ≠ some rid) :
    rid ∈ (protocol.dispatchMessage pending subs m).1 := by
  rw [protocol.dispatchMessage]
  rcases hr : m.header.requestID with _ | r
  · exact hin
  · by_cases hp : r ∈ pending
    · have hne : rid ≠ r := by
        intro he
        rw [hr] at h
        exact h (by rw [he])
      simpa [hp] using (List.mem_erase_of_ne hne).2 hin
    · simpa [hp] using hin

/-- A message sequence carrying no message with request id `rid` produces no
delivery into `rid`'s slot. -/
theorem protocol.dispatchAll_no_rid (pending : List Nat)
    (subs : List (String × String)) (msgs : List protocol.Message) (rid : Nat)
    (h : ∀ x ∈ msgs, x.header.requestID ≠ some rid) :
    (protocol.dispatchAll pending subs msgs).2.filter (protocol.isResponseTo rid)
      = [] := by
  induction msgs generalizing pending with
  | nil => rfl
  | cons m ms ih =>
    rw [protocol.dispatchAll]
    simp only [List.filter_append]
    rw [protocol.dispatchMessage_other_rid pending subs m rid
        (h m (List.mem_cons_self m ms)),
      ih _ (fun x hx => h x (List.mem_cons_of_mem m hx))]
    rfl

/-- C2: a decoded message whose request id matches a pending entry is
delivered into that entry's slot, the entry is removed, and nothing is
delivered to any subscription; consequently over any arrival interleaving of
responses with distinct request ids, the caller pending on `rid` receives
exactly the payload of the unique message carrying `rid`. -/
theorem C2_request_correlation :
    (∀ (pending : List Nat) (subs : List (String × String)) (m : protocol.Message)
        (rid : Nat),
      m.header.requestID = some rid → rid ∈ pending →
      protocol.dispatchMessage pending subs m
        = (pending.erase rid, [protocol.Delivery.toPending rid m.payload])) ∧
    (∀ (pending : List Nat) (subs : List (String × String))
        (msgs : List protocol.Message) (rid : Nat) (m : protocol.Message),
      rid ∈ pending →
      msgs.filter (fun x => x.header.requestID == some rid) = [m] →
      (protocol.dispatchAll pending subs msgs).2.filter (protocol.isResponseTo rid)
        = [protocol.Delivery.toPending rid m.payload]) := by
  constructor
  · intro pending subs m rid hr hp
    rw [protocol.dispatchMessage, hr]
    simp [hp]
  · intro pending subs msgs
    induction msgs generalizing pending with
    | nil =>
      intro rid m _ hfilter
      simp at hfilter
    | cons m' ms ih =>
      intro rid m hp hfilter
      rw [List.filter_cons] at hfilter
      by_cases hb : (m'.header.requestID == some rid) = true
      · rw [if_pos hb] at hfilter
        have hm : m' = m := (List.cons.injEq _ _ _ _ ▸ hfilter).1
        have hrest : ms.filter (fun x => x.header.requestID == some rid) = [] :=
          (List.cons.injEq _ _ _ _ ▸ hfilter).2
        subst hm
        have hr : m'.header.requestID = some rid := by simpa using hb
        have hnone : ∀ x ∈ ms, x.header.requestID ≠ some rid := by
          intro x hx
          have := List.filter_eq_nil_iff.1 hrest x hx
          simpa using this
        simp only [protocol.dispatchAll, List.filter_append]
        rw [protocol.dispatchMessage, hr]
        simp only [hp, if_pos hp]
        rw [protocol.dispatchAll_no_rid _ subs ms rid hnone]
        simp [protocol.isResponseTo]
      · have hne : m'.header.requestID ≠ some rid := by
          intro he
          exact hb (by simp [he])
        rw [if_neg hb] at hfilter
        simp only [protocol.dispatchAll, List.filter_append]
        rw [protocol.dispatchMessage_other_rid pending subs m' rid hne]
        rw [ih _ rid m
          (protocol.dispatchMessage_preserves_pending pending subs m' rid hp hne)
          hfilter]
        rfl

/-- C2 (witness): two pending requests 7 and 9 whose responses arrive in the
opposite order; the caller pending on 7 receives exactly the payload of the
response carrying request id 7. -/
theorem C2_witness :
    (protocol.dispatchAll [7, 9] [] [protocol.responseNine, protocol.responseSeven]).2.filter
        (protocol.isResponseTo 7)
      = [protocol.Delivery.toPending 7 [2]] :=
  C2_request_correlation.2 [7, 9] [] [protocol.responseNine, protocol.responseSeven]
    7 protocol.responseSeven (by decide) (by decide)

/-- C9: for the accelerator built by `newStreakFactor` (base interval 50ms,
tiers 3s↦6, 2s↦4, 1s↦2), a call arriving more than 50ms after the previous
one resets the streak start to now and returns 1; otherwise the factor is
determined by the largest tier threshold not exceeding the time since the
streak's start — 6 from 3s, 4 from 2s, 2 from 1s, and 1 below 1s. -/
theorem C9_streak_factor (start last now : Nat) :
    (50 < now - last →
      streak.UpdatedFactor (streakStateAt start last) now
        = (streakStateAt now now, 1)) ∧
    (now - last ≤ 50 →
      (streak.UpdatedFactor (streakStateAt start last) now).2
        = if 3000 ≤ now - start then 6
          else if 2000 ≤ now - start then 4
          else if 1000 ≤ now - start then 2
          else 1) := by
  constructor
  · intro h
    rw [streak.UpdatedFactor]
    rw [if_pos (by simpa [streakStateAt, newStreakFactor, streak.New] using h)]
    rfl
  · intro h
    rw [streak.UpdatedFactor]
    rw [if_neg (by simp [streakStateAt, newStreakFactor, streak.New]; omega)]
    by_cases h3 : 3000 ≤ now - start
    · have h2 : 2000 ≤ now - start := by omega
      have h1 : 1000 ≤ now - start := by omega
      simp [streakStateAt, newStreakFactor, streak.New, List.find?_cons, h3, h2, h1]
    · by_cases h2 : 2000 ≤ now - start
      · have h1 : 1000 ≤ now - start := by omega
        simp [streakStateAt, newStreakFactor, streak.New, List.find?_cons, h3, h2, h1]
      · by_cases h1 : 1000 ≤ now - start
        · simp [streakStateAt, newStreakFactor, streak.New, List.find?_cons, h3, h2, h1]
        · simp [streakStateAt, newStreakFactor, streak.New, List.find?_cons, h3, h2, h1]

/-- C9 (witness): a call 40ms after the previous one, 2.5s into the streak,
yields factor 4; a call 200ms after the previous one resets the streak and
yields factor 1. -/
theorem C9_witness :
    (streak.UpdatedFactor (streakStateAt 0 2460) 2500).2 = 4 ∧
    streak.UpdatedFactor (streakStateAt 0 300) 500 = (streakStateAt 500 500, 1) :=
  ⟨((C9_streak_factor 0 2460 2500).2 (by decide)).trans (by decide),
   (C9_streak_factor 0 300 500).1 (by decide)⟩

/-- `getLast?` of a non-empty list: the last of the tail, or the head when
the tail is empty. -/
theorem getLast?_cons_eq {α : Type} (x : α) (l : List α) :
    (x :: l).getLast? =
      match l.getLast? with
      | some y => some y
      | none => some x := by
  cases l with
  | nil => rfl
  | cons b l =>
    rw [List.getLast?_cons_cons]
    rcases hb : (b :: l).getLast? with _ | y
    · simp at hb
    · rfl

/-- Looking a key up after a Go map assignment: the assigned value for that
key, anything else unchanged. -/
theorem mapInsert_lookup (m : List (String × String)) (k v k' : String) :
    (mapInsert m k v).lookup k' = if k' == k then some v else m.lookup k' := by
  induction m with
  | nil =>
    rw [mapInsert]
    by_cases h : k' = k
    · simp [List.lookup, h]
    · simp [List.lookup, h, show (k' == k) = false by simpa using h]
  | cons p m ih =>
    obtain ⟨a, b⟩ := p
    rw [mapInsert]
    by_cases hp : a = k
    · rw [if_pos (by simpa using hp)]
      by_cases h : k' = k
      · simp [List.lookup, h, hp]
      · have hka : k' ≠ a := fun he => h (he.trans hp)
        simp [List.lookup, h, show (k' == k) = false by simpa using h,
          show (k' == a) = false by simpa using hka]
    · rw [if_neg (by simpa using hp)]
      by_cases hk : k' = a
      · have hkk : k' ≠ k := fun he => hp (hk.symm.trans he)
        simp [List.lookup, hk, hp, hkk,
          show (k' == k) = false by simpa using hkk]
      · simp only [List.lookup, show (k' == a) = false by simpa using hk]
        exact ih

/-- A Go map assignment grows the map by at most one entry. -/
theorem mapInsert_length_le (m : List (String × String)) (k v : String) :
    (mapInsert m k v).length ≤ m.length + 1 := by
  induction m with
  | nil => simp [mapInsert]
  | cons p m ih =>
    rw [mapInsert]
    by_cases hp : (p.1 == k) = true
    · rw [if_pos hp]
      simp
    · rw [if_neg hp]
      simp only [List.length_cons]
      omega

/-- Records without '=' do not change the accumulated map: the parsing fold
over any record list equals the fold over its '='-containing records. -/
theorem parseFold_skips_no_eq (rs : List String) (m : List (String × String)) :
    rs.foldl
        (fun m v =>
          match splitEq v with
          | some kv => mapInsert m kv.1 kv.2
          | none => m) m
      = (rs.filter (fun v => (splitEq v).isSome)).foldl
          (fun m v =>
            match splitEq v with
            | some kv => mapInsert m kv.1 kv.2
            | none => m) m := by
  induction rs generalizing m with
  | nil => rfl
  | cons v rs ih =>
    rw [List.foldl_cons, List.filter_cons]
    rcases hs : splitEq v with _ | kv
    · simp only [hs, Option.isSome_none, Bool.false_eq_true, if_false]
      exact ih m
    · simp only [hs, Option.isSome_some, if_true, List.foldl_cons]
      exact ih (mapInsert m kv.1 kv.2)

/-- Looking a key up in the accumulated map: the value of the last matching
'='-containing record, or the accumulator's value when no record matches. -/
theorem parseFold_lookup (rs : List String) (m : List (String × String)) (k : String) :
    (rs.foldl
        (fun m v =>
          match splitEq v with
          | some kv => mapInsert m kv.1 kv.2
          | none => m) m).lookup k
      = match lastValue rs k with
        | some v => some v
        | none => m.lookup k := by
  induction rs generalizing m with
  | nil => simp [lastValue]
  | cons v rs ih =>
    rw [List.foldl_cons]
    rcases hs : splitEq v with _ | kv
    · simp only [hs]
      rw [ih m]
      have hlv : lastValue (v :: rs) k = lastValue rs k := by
        rw [lastValue, lastValue, List.filterMap_cons, hs]
      rw [hlv]
    · simp only [hs]
      rw [ih (mapInsert m kv.1 kv.2)]
      by_cases hkv : kv.1 = k
      · have hlv : lastValue (v :: rs) k
            = match lastValue rs k with
              | some w => some w
              | none => some kv.2 := by
          rw [lastValue, lastValue, List.filterMap_cons, hs, List.filter_cons,
            if_pos (by simpa using hkv), getLast?_cons_eq]
          cases hL : ((rs.filterMap splitEq).filter (fun p => p.1 == k)).getLast? with
          | none => rfl
          | some p => rfl
        rw [hlv]
        rcases lastValue rs k with _ | w
        · rw [mapInsert_lookup]
          rw [if_pos (by simpa using hkv.symm)]
        · rfl
      · have hlv : lastValue (v :: rs) k = lastValue rs k := by
          rw [lastValue, lastValue, List.filterMap_cons, hs, List.filter_cons,
            if_neg (by simpa using hkv)]
        rw [hlv]
        rcases lastValue rs k with _ | w
        · rw [mapInsert_lookup]
          rw [if_neg (by simpa using fun he => hkv (he.symm))]
        · rfl

/-- The accumulated map grows by at most one entry per '='-containing
record. -/
theorem parseFold_length_le (rs : List String) (m : List (String × String)) :
    (rs.foldl
        (fun m v =>
          match splitEq v with
          | some kv => mapInsert m kv.1 kv.2
          | none => m) m).length
      ≤ m.length + (rs.filter (fun v => (splitEq v).isSome)).length := by
  induction rs generalizing m with
  | nil => simp
  | cons v rs ih =>
    rw [List.foldl_cons, List.filter_cons]
    rcases hs : splitEq v with _ | kv
    · simp only [hs, Option.isSome_none, Bool.false_eq_true, if_false]
      exact ih m
    · simp only [hs, Option.isSome_some, if_true, List.length_cons]
      calc (rs.foldl _ (mapInsert m kv.1 kv.2)).length
        ≤ (mapInsert m kv.1 kv.2).length
            + (rs.filter (fun v => (splitEq v).isSome)).length := ih _
        _ ≤ m.length + ((rs.filter (fun v => (splitEq v).isSome)).length + 1) := by
            have := mapInsert_length_le m kv.1 kv.2
            omega

/-- C10 (counterexample): the records `["a=1", "a=2"]` both contain '=', yet
`ParseProperties` returns a one-entry map (the second record overwrote the
first), so the map does not contain one entry per '='-containing record,
and the record "a=1" does not end up mapping "a" to "1". -/
theorem C10_counterexample :
    (zeroconf.ParseProperties ["a=1", "a=2"]).length = 1 ∧
    (["a=1", "a=2"].filter (fun v => (splitEq v).isSome)).length = 2 ∧
    (zeroconf.ParseProperties ["a=1", "a=2"]).length
      ≠ (["a=1", "a=2"].filter (fun v => (splitEq v).isSome)).length ∧
    (zeroconf.ParseProperties ["a=1", "a=2"]).lookup "a" = some "2" :=
  ⟨by decide, by decide, by decide, by decide⟩

/-- C10 (amended): for every record list, `ParseProperties` returns a map
with at most one entry per '='-containing record: each key maps the text
before the first '=' to the text after the first '=' of the *last* record
with that key (so a value may itself contain '=' characters, and later
records with the same key overwrite earlier ones); records without '=' are
silently omitted and never cause an error; the mdns variant is the same
parse applied to the '|'-split info string. -/
theorem C10_parse_properties :
    (∀ rs : List String,
      zeroconf.ParseProperties rs
        = zeroconf.ParseProperties (rs.filter (fun v => (splitEq v).isSome))) ∧
    (∀ (rs : List String) (k : String),
      (zeroconf.ParseProperties rs).lookup k = lastValue rs k) ∧
    (∀ rs : List String,
      (zeroconf.ParseProperties rs).length
        ≤ (rs.filter (fun v => (splitEq v).isSome)).length) ∧
    (∀ txt : String,
      mdns.ParseProperties txt = zeroconf.ParseProperties (mdns.splitPipe txt)) := by
  refine ⟨fun rs => ?_, fun rs k => ?_, fun rs => ?_, fun txt => rfl⟩
  · exact parseFold_skips_no_eq rs []
  · rw [zeroconf.ParseProperties, parsePairs, parseFold_lookup]
    cases lastValue rs k with
    | none => rfl
    | some w => rfl
  · have := parseFold_length_le rs []
    simpa using this
